import Mathlib

/-!
Verification development for the Doc-Markings editor shell.

Shallow embedding of the multi-document session core found in
`src/App.tsx` and `src/components/FindReplaceDialog.tsx`:
tab registry (create / close / select / cycle), unsaved-change guard,
window-close handling, editor-to-registry synchronization (`onUpdate`),
and the find/replace matcher.

React `useState` state is modelled as an explicit `AppState` record that
operations transform.  `Date.now()` is modelled as an explicit `now : Nat`
argument.  The `confirm` dialog result is modelled as an explicit
`answer : Bool` argument.  JavaScript regular-expression matching is
modelled on its literal fragment: the application always escapes the
query before building a pattern, and `literalOfPattern` interprets the
resulting escaped patterns.
-/

namespace DocMarkings

/-- Tab data structure, from the `Tab` interface in `src/App.tsx`. -/
structure Tab where
  id : String
  title : String
  filePath : Option String
  content : String
  isModified : Bool
deriving Repr, DecidableEq

/-- The registry state: the `tabs` and `activeTabId` `useState` cells of `App`. -/
structure AppState where
  tabs : List Tab
  activeTabId : String
deriving Repr, DecidableEq

/-- The default tab payload used by `createNewTab` and by `closeTab`'s
last-tab replacement in `src/App.tsx`. -/
def defaultTab (id : String) : Tab :=
  { id := id, title := "Untitled", filePath := none, content := "", isModified := false }

/-- Tab-id generation from `src/App.tsx`: the template literal built
from `Date.now()`. -/
def mkTabId (now : Nat) : String := "tab-" ++ toString now

/-- The initial registry state from the `useState` initializers of `App`. -/
def initialState : AppState :=
  { tabs := [defaultTab "tab-1"], activeTabId := "tab-1" }

/-- `activeTab` from `src/App.tsx`:
`tabs.find(tab => tab.id === activeTabId) || tabs[0]`. -/
def activeTab (s : AppState) : Option Tab :=
  match s.tabs.find? (fun t => t.id == s.activeTabId) with
  | some t => some t
  | none => s.tabs.head?

/-- `updateTabContent` from `src/App.tsx`: map over the tabs, replacing the
content and modification flag of the tab whose id matches. -/
def updateTabContent (tabId content : String) (isModified : Bool) (s : AppState) : AppState :=
  { s with
    tabs := s.tabs.map (fun t =>
      if t.id == tabId then { t with content := content, isModified := isModified } else t) }

/-- `updateTabFile` from `src/App.tsx`: map over the tabs, replacing the
file binding of the tab whose id matches. -/
def updateTabFile (tabId : String) (filePath : Option String) (title : String)
    (isModified : Bool) (s : AppState) : AppState :=
  { s with
    tabs := s.tabs.map (fun t =>
      if t.id == tabId then { t with filePath := filePath, title := title, isModified := isModified } else t) }

/-- `createNewTab` from `src/App.tsx`: append a fresh default tab and
activate it. -/
def createNewTab (now : Nat) (s : AppState) : AppState :=
  { tabs := s.tabs ++ [defaultTab (mkTabId now)], activeTabId := mkTabId now }

/-- `closeTab` from `src/App.tsx`.  Filters the closed id out; if the closed
tab was active and tabs remain, activates the last remaining tab; if no tab
remains, returns a single fresh default tab.  Note that in the empty case the
source does not call `setActiveTabId`, so `activeTabId` is left unchanged. -/
def closeTab (now : Nat) (tabId : String) (s : AppState) : AppState :=
  let filtered := s.tabs.filter (fun t => t.id != tabId)
  let newActive :=
    match filtered.getLast? with
    | some last => if tabId == s.activeTabId then last.id else s.activeTabId
    | none => s.activeTabId
  { tabs := if filtered.isEmpty then [defaultTab (mkTabId now)] else filtered,
    activeTabId := newActive }

/-- `checkUnsavedChanges` from `src/App.tsx`.  Resolves the tab (by id when
given, else the active tab); returns true at once when it is absent or
unmodified (`!tab?.isModified`), otherwise returns the user's `confirm`
answer, modelled by `answer`. -/
def checkUnsavedChanges (answer : Bool) (s : AppState) (tabId? : Option String) : Bool :=
  let tab? : Option Tab :=
    match tabId? with
    | some i => s.tabs.find? (fun t => t.id == i)
    | none => activeTab s
  match tab? with
  | none => true
  | some t => if t.isModified then answer else true

/-- `handleCloseTab` from `src/App.tsx`: no-op when the id is unknown; for a
modified tab, consult `checkUnsavedChanges` and abort when declined;
otherwise delegate to `closeTab`. -/
def handleCloseTab (now : Nat) (answer : Bool) (tabId : String) (s : AppState) : AppState :=
  match s.tabs.find? (fun t => t.id == tabId) with
  | none => s
  | some tab =>
    if tab.isModified then
      if checkUnsavedChanges answer s (some tabId) then closeTab now tabId s else s
    else closeTab now tabId s

/-- JavaScript `Array.prototype.findIndex`, returning `none` for `-1`. -/
def jsFindIndex (p : Tab → Bool) : List Tab → Option Nat
  | [] => none
  | t :: rest => if p t then some 0 else (jsFindIndex p rest).map (fun i => i + 1)

/-- The `Ctrl+Tab` handler from `src/App.tsx`:
`nextIndex = (currentIndex + 1) % tabs.length`.  When `findIndex` yields
`-1` the source computes index `0`.  An empty registry (where the source
would throw on `tabs[nextIndex].id`) never arises; the model returns the
state unchanged there. -/
def cycleNext (s : AppState) : AppState :=
  let nextIndex :=
    match jsFindIndex (fun t => t.id == s.activeTabId) s.tabs with
    | some i => (i + 1) % s.tabs.length
    | none => 0
  match s.tabs.get? nextIndex with
  | some t => { s with activeTabId := t.id }
  | none => s

/-- The `Ctrl+Shift+Tab` handler from `src/App.tsx`:
`prevIndex = currentIndex === 0 ? tabs.length - 1 : currentIndex - 1`.
When `findIndex` yields `-1` the source would access `tabs[-2]` and throw;
that path never arises while the invariant holds, and the model returns the
state unchanged there. -/
def cyclePrevious (s : AppState) : AppState :=
  match jsFindIndex (fun t => t.id == s.activeTabId) s.tabs with
  | some i =>
    match s.tabs.get? (if i = 0 then s.tabs.length - 1 else i - 1) with
    | some t => { s with activeTabId := t.id }
    | none => s
  | none => s

/-- The canonical empty-document serialization compared against in
`onUpdate` in `src/App.tsx`. -/
def emptyDoc : String := "<p></p>"

/-- The editor `onUpdate` handler from `src/App.tsx`:
`isModified = newContent !== '<p></p>' && newContent !== activeTab.content`,
then `updateTabContent(activeTabId, newContent, isModified)`. -/
def onUpdate (newContent : String) (s : AppState) : AppState :=
  match activeTab s with
  | none => s
  | some tab =>
    updateTabContent s.activeTabId newContent
      (newContent != emptyDoc && newContent != tab.content) s

/-- Outcome of a window close request. -/
inductive CloseOutcome where
  | closed
  | cancelled
  | defaultClose
deriving Repr, DecidableEq

/-- `handleWindowClose` from `src/App.tsx`: when some tab is modified, the
default close is vetoed (`event.preventDefault()`), the guard is consulted
(on the active tab) and `appWindow.close()` runs only when it allows;
otherwise the handler does nothing and the host's default close proceeds. -/
def handleWindowClose (answer : Bool) (s : AppState) : CloseOutcome :=
  if s.tabs.any (fun t => t.isModified) then
    if checkUnsavedChanges answer s none then CloseOutcome.closed else CloseOutcome.cancelled
  else CloseOutcome.defaultClose

/-- One registry-level operation of the session state machine.  `setContent`
and `setFile` are the registry effects through which the open/save handlers
act (`updateTabContent` / `updateTabFile`). -/
inductive RegistryOp where
  | create (now : Nat)
  | close (now : Nat) (tabId : String)
  | select (tabId : String)
  | next
  | prev
  | setContent (tabId content : String) (m : Bool)
  | setFile (tabId : String) (path : Option String) (title : String) (m : Bool)
deriving Repr, DecidableEq

/-- Apply a registry operation to the state. -/
def applyOp : RegistryOp → AppState → AppState
  | RegistryOp.create now, s => createNewTab now s
  | RegistryOp.close now id, s => closeTab now id s
  | RegistryOp.select id, s => { s with activeTabId := id }
  | RegistryOp.next, s => cycleNext s
  | RegistryOp.prev, s => cyclePrevious s
  | RegistryOp.setContent id c m, s => updateTabContent id c m s
  | RegistryOp.setFile id p ti m, s => updateTabFile id p ti m s

/-- Call-site condition: `select` (a tab-bar click) only ever passes the id
of a rendered, hence existing, tab. -/
def opOK : RegistryOp → AppState → Prop
  | RegistryOp.select id, s => id ∈ s.tabs.map Tab.id
  | _, _ => True

/-- The registry invariant of the spec: at least one tab exists and
`activeTabId` references an existing tab. -/
def TabsInv (s : AppState) : Prop :=
  s.tabs ≠ [] ∧ s.activeTabId ∈ s.tabs.map Tab.id

instance (s : AppState) : Decidable (TabsInv s) := by
  unfold TabsInv; infer_instance

/-- Whether an operation is a `closeTab` that removes every tab (the sole
remaining tab is closed), the one case in which the source forgets to
repoint `activeTabId`. -/
def lastTabClose (op : RegistryOp) (s : AppState) : Prop :=
  ∃ now id, op = RegistryOp.close now id ∧ s.tabs.filter (fun t => t.id != id) = []

/- ===== Find/replace matcher (src/components/FindReplaceDialog.tsx) ===== -/

/-- The characters escaped by `escapeRegex` in
`src/components/FindReplaceDialog.tsx` — exactly the JavaScript regex
metacharacters. -/
def isRegexMeta (c : Char) : Bool :=
  ['.', '*', '+', '?', '^', '$', '\x7b', '\x7d', '(', ')', '|', '[', ']', '\\'].contains c

/-- Character-level body of `escapeRegex`: prefix every metacharacter with a
backslash (the source's `string.replace` with replacement `'\\$&'`). -/
def escapeRegexList : List Char → List Char
  | [] => []
  | c :: rest =>
    if isRegexMeta c then '\\' :: c :: escapeRegexList rest
    else c :: escapeRegexList rest

/-- `escapeRegex` from `src/components/FindReplaceDialog.tsx`. -/
def escapeRegex (s : String) : String := String.mk (escapeRegexList s.toList)

/-- The literal fragment of JavaScript regex patterns: a pattern consisting
of non-metacharacters and backslash-escaped metacharacters denotes the
literal character sequence it spells.  Every pattern the dialog builds is in
this fragment because the query is escaped first.  Returns `none` outside
the fragment. -/
def literalOfPattern : List Char → Option (List Char)
  | [] => some []
  | c :: rest =>
    if c = '\\' then
      match rest with
      | [] => none
      | d :: rest2 =>
        if isRegexMeta d then (literalOfPattern rest2).map (fun l => d :: l) else none
    else if isRegexMeta c then none
    else (literalOfPattern rest).map (fun l => c :: l)

/-- Case canonicalization selected by the dialog's `caseSensitive` flag: the
`'i'` regex flag folds case (modelled with `Char.toLower`). -/
def foldCase (caseSensitive : Bool) (c : Char) : Char :=
  if caseSensitive then c else c.toLower

/-- Does `needle` occur at the head of `haystack`, comparing characters
through `fold`? -/
def matchesAt (fold : Char → Char) : List Char → List Char → Bool
  | [], _ => true
  | _ :: _, [] => false
  | a :: as, b :: bs => (fold a == fold b) && matchesAt fold as bs

/-- Scanning loop of JavaScript global matching for a literal needle:
leftmost non-overlapping matches; `skip` counts characters still covered by
the previous match. -/
def jsCountMatchesGo (fold : Char → Char) (needle : List Char) : Nat → List Char → Nat
  | _, [] => 0
  | k + 1, _ :: rest => jsCountMatchesGo fold needle k rest
  | 0, c :: rest =>
    if matchesAt fold needle (c :: rest) then
      1 + jsCountMatchesGo fold needle (needle.length - 1) rest
    else
      jsCountMatchesGo fold needle 0 rest

/-- Number of matches `content.match(regex)` reports for a literal needle
with the `g` flag.  (An empty pattern matches once at every position and
once at the end.) -/
def jsCountMatches (fold : Char → Char) (needle haystack : List Char) : Nat :=
  if needle.isEmpty then haystack.length + 1
  else jsCountMatchesGo fold needle 0 haystack

/-- Match counting for a pattern built by the dialog (always inside the
literal fragment). -/
def regexCountMatches (fold : Char → Char) (pattern content : String) : Nat :=
  match literalOfPattern pattern.toList with
  | some lit => jsCountMatches fold lit content.toList
  | none => 0

/-- The Find/Replace dialog's session state (its `useState` cells). -/
structure FindSession where
  findText : String
  replaceText : String
  caseSensitive : Bool
  currentMatch : Nat
  totalMatches : Nat
deriving Repr, DecidableEq

/-- The dialog's initial session state:  empty fields, case-insensitive. -/
def initialFindSession : FindSession :=
  { findText := "", replaceText := "", caseSensitive := false,
    currentMatch := 0, totalMatches := 0 }

/-- `findNext` from `src/components/FindReplaceDialog.tsx`: early return on
an empty query; otherwise count matches of the escaped query (`g` or `gi`
flags); a non-null match array sets `totalMatches` to its length, a null one
resets `totalMatches` and `currentMatch` to 0. -/
def findNext (content : String) (sess : FindSession) : FindSession :=
  if sess.findText = "" then sess
  else
    let cnt := regexCountMatches (foldCase sess.caseSensitive) (escapeRegex sess.findText) content
    if 0 < cnt then { sess with totalMatches := cnt }
    else { sess with totalMatches := 0, currentMatch := 0 }

/-- JavaScript replacement-string expansion (`String.prototype.replace`):
`$$` inserts a dollar, `$&` the matched text, a dollar before a backquote
the part before the match, a dollar before a quote the part after it.  The
dialog's patterns have no capture groups, so `$<digit>` and everything else
stays literal. -/
def expandReplacement (matched before after : List Char) : List Char → List Char
  | [] => []
  | c :: rest =>
    if c = '$' then
      match rest with
      | [] => ['$']
      | d :: rest2 =>
        if d = '$' then '$' :: expandReplacement matched before after rest2
        else if d = '&' then matched ++ expandReplacement matched before after rest2
        else if d = '\x60' then before ++ expandReplacement matched before after rest2
        else if d = '\x27' then after ++ expandReplacement matched before after rest2
        else '$' :: d :: expandReplacement matched before after rest2
    else c :: expandReplacement matched before after rest

/-- Scanning loop of non-global `String.prototype.replace` for a literal
needle: replace the leftmost occurrence, expanding the replacement. -/
def jsReplaceFirstGo (fold : Char → Char) (needle repl : List Char) :
    List Char → List Char → List Char
  | pre, [] => pre.reverse
  | pre, c :: rest =>
    if matchesAt fold needle (c :: rest) then
      pre.reverse
        ++ expandReplacement ((c :: rest).take needle.length) pre.reverse
             ((c :: rest).drop needle.length) repl
        ++ (c :: rest).drop needle.length
    else jsReplaceFirstGo fold needle repl (c :: pre) rest

/-- `content.replace(regex, repl)` without the `g` flag, literal needle. -/
def jsReplaceFirst (fold : Char → Char) (needle repl content : List Char) : List Char :=
  jsReplaceFirstGo fold needle repl [] content

/-- Scanning loop of global `String.prototype.replace` for a literal needle:
`pre` is the already-scanned original prefix (reversed), `acc` the output
built so far (reversed), `skip` the characters still covered by the previous
match (these are consumed without being copied). -/
def jsReplaceAllGo (fold : Char → Char) (needle repl : List Char) :
    List Char → List Char → Nat → List Char → List Char
  | _, acc, _, [] => acc.reverse
  | pre, acc, k + 1, c :: rest => jsReplaceAllGo fold needle repl (c :: pre) acc k rest
  | pre, acc, 0, c :: rest =>
    if matchesAt fold needle (c :: rest) then
      jsReplaceAllGo fold needle repl (c :: pre)
        ((expandReplacement ((c :: rest).take needle.length) pre.reverse
            ((c :: rest).drop needle.length) repl).reverse ++ acc)
        (needle.length - 1) rest
    else jsReplaceAllGo fold needle repl (c :: pre) (c :: acc) 0 rest

/-- `content.replace(regex, repl)` with the `g` flag, literal needle. -/
def jsReplaceAll (fold : Char → Char) (needle repl content : List Char) : List Char :=
  jsReplaceAllGo fold needle repl [] [] 0 content

/-- First-occurrence replacement for a pattern built by the dialog. -/
def regexReplaceFirst (fold : Char → Char) (pattern repl content : String) : String :=
  match literalOfPattern pattern.toList with
  | some lit => String.mk (jsReplaceFirst fold lit repl.toList content.toList)
  | none => content

/-- Every-occurrence replacement for a pattern built by the dialog. -/
def regexReplaceAll (fold : Char → Char) (pattern repl content : String) : String :=
  match literalOfPattern pattern.toList with
  | some lit => String.mk (jsReplaceAll fold lit repl.toList content.toList)
  | none => content

/-- The document-plus-dialog state the find/replace handlers act on:
`content` models `editor.getHTML()` / `editor.commands.setContent`. -/
structure DocState where
  content : String
  sess : FindSession
deriving Repr, DecidableEq

/-- `replaceNext` from `src/components/FindReplaceDialog.tsx`: early return
on an empty query; replace the first occurrence (flags `''`/`'i'`); when the
content changed, re-import it and run `findNext` on the new content. -/
def replaceNext (d : DocState) : DocState :=
  if d.sess.findText = "" then d
  else
    let newContent := regexReplaceFirst (foldCase d.sess.caseSensitive)
      (escapeRegex d.sess.findText) d.sess.replaceText d.content
    if newContent ≠ d.content then
      { content := newContent, sess := findNext newContent d.sess }
    else d

/-- `replaceAll` from `src/components/FindReplaceDialog.tsx`: early return
on an empty query; replace every occurrence (flags `'g'`/`'gi'`); when the
content changed, re-import it and reset both counters to 0. -/
def replaceAll (d : DocState) : DocState :=
  if d.sess.findText = "" then d
  else
    let newContent := regexReplaceAll (foldCase d.sess.caseSensitive)
      (escapeRegex d.sess.findText) d.sess.replaceText d.content
    if newContent ≠ d.content then
      { content := newContent,
        sess := { d.sess with totalMatches := 0, currentMatch := 0 } }
    else d

/- ===== Specification-side definitions (from the spec's words) ===== -/

/-- Fuel-driven count of leftmost non-overlapping occurrences of a
(nonempty) needle; fuel at least the haystack length suffices. -/
def countOccurrencesGo (fold : Char → Char) (needle : List Char) : Nat → List Char → Nat
  | _, [] => 0
  | 0, _ :: _ => 0
  | fuel + 1, c :: rest =>
    if matchesAt fold needle (c :: rest) then
      1 + countOccurrencesGo fold needle fuel ((c :: rest).drop needle.length)
    else
      countOccurrencesGo fold needle fuel rest

/-- The spec's "total number of occurrences of `query` taken as a literal
string": leftmost non-overlapping occurrences. -/
def countOccurrences (fold : Char → Char) (needle l : List Char) : Nat :=
  countOccurrencesGo fold needle l.length l

/-- Fuel-driven literal replace-all: each leftmost non-overlapping
occurrence of a (nonempty) needle is replaced by the replacement text taken
literally. -/
def literalReplaceGo (fold : Char → Char) (needle repl : List Char) : Nat → List Char → List Char
  | _, [] => []
  | 0, l => l
  | fuel + 1, c :: rest =>
    if matchesAt fold needle (c :: rest) then
      repl ++ literalReplaceGo fold needle repl fuel ((c :: rest).drop needle.length)
    else
      c :: literalReplaceGo fold needle repl fuel rest

/-- The spec's "replaces every occurrence in one pass" with the replacement
taken as literal text. -/
def literalReplaceAll (fold : Char → Char) (needle repl l : List Char) : List Char :=
  literalReplaceGo fold needle repl l.length l

/- ===== Helper lemmas ===== -/

theorem toList_ne_nil_of_ne_empty (s : String) (h : s ≠ "") : s.toList ≠ [] := by
  cases s with
  | mk d =>
    intro hd
    apply h
    simp only [String.toList] at hd
    simp [hd]

theorem mk_toList (s : String) : String.mk s.toList = s := by
  cases s; rfl

/-- A nonempty registry always yields an active tab that is a member of the
registry (either the referenced tab, or the first-tab fallback). -/
theorem activeTab_mem (s : AppState) (h : s.tabs ≠ []) :
    ∃ t, activeTab s = some t ∧ t ∈ s.tabs := by
  unfold activeTab
  cases hf : s.tabs.find? (fun t => t.id == s.activeTabId) with
  | some t => exact ⟨t, rfl, List.mem_of_find?_eq_some hf⟩
  | none =>
    cases hl : s.tabs with
    | nil => exact absurd hl h
    | cons a l => exact ⟨a, by simp [hl], by simp [hl]⟩

theorem map_eq_self_of_fixed {α : Type} (f : α → α) :
    ∀ l : List α, (∀ x ∈ l, f x = x) → l.map f = l
  | [], _ => rfl
  | a :: l, h => by
    simp only [List.map_cons, h a (by simp)]
    rw [map_eq_self_of_fixed f l (fun x hx => h x (by simp [hx]))]

theorem jsFindIndex_isSome (p : Tab → Bool) :
    ∀ l : List Tab, (∃ t ∈ l, p t) → (jsFindIndex p l).isSome
  | [], h => by simp at h
  | a :: l, h => by
    unfold jsFindIndex
    by_cases hp : p a
    · simp [hp]
    · obtain ⟨t, ht, hpt⟩ := h
      rcases List.mem_cons.mp ht with rfl | ht2
      · exact absurd hpt hp
      · have := jsFindIndex_isSome p l ⟨t, ht2, hpt⟩
        cases hj : jsFindIndex p l with
        | none => rw [hj] at this; simp at this
        | some i => simp [hp, hj]

theorem jsFindIndex_lt_length (p : Tab → Bool) :
    ∀ (l : List Tab) (i : Nat), jsFindIndex p l = some i → i < l.length
  | [], i, h => by simp [jsFindIndex] at h
  | a :: l, i, h => by
    unfold jsFindIndex at h
    by_cases hp : p a
    · rw [if_pos hp] at h
      cases h
      simp
    · rw [if_neg hp] at h
      cases hj : jsFindIndex p l with
      | none => rw [hj] at h; simp at h
      | some j =>
        rw [hj] at h
        simp only [Option.map_some'] at h
        cases h
        have hlt := jsFindIndex_lt_length p l j hj
        simp only [List.length_cons]
        omega

theorem get?_some_of_lt {α : Type} (l : List α) (n : Nat) (h : n < l.length) :
    ∃ a, l.get? n = some a ∧ a ∈ l := by
  rw [List.get?_eq_get h]
  exact ⟨l.get ⟨n, h⟩, rfl, List.get_mem l n h⟩

theorem expand_no_dollar (matched before after : List Char) :
    ∀ repl : List Char, '$' ∉ repl → expandReplacement matched before after repl = repl
  | [], _ => rfl
  | c :: rest, h => by
    have hc : c ≠ '$' := fun hcc => h (hcc ▸ List.mem_cons_self c rest)
    have hr : '$' ∉ rest := fun hm => h (List.mem_cons_of_mem c hm)
    rw [expandReplacement.eq_def]
    simp only [hc, if_false]
    rw [expand_no_dollar matched before after rest hr]

/-- Escaping a string and reading the resulting pattern back through the
literal fragment of the regex language recovers the original string: the
escaped query is matched as literal text. -/
theorem escape_literal_roundtrip :
    ∀ l : List Char, literalOfPattern (escapeRegexList l) = some l
  | [] => rfl
  | c :: l => by
    cases hm : isRegexMeta c with
    | true =>
      simp only [escapeRegexList, hm, if_true]
      rw [literalOfPattern.eq_def]
      simp [hm, escape_literal_roundtrip l]
    | false =>
      have hc : c ≠ '\\' := by
        intro hcc
        rw [hcc] at hm
        exact absurd hm (by decide)
      simp only [escapeRegexList, hm, Bool.false_eq_true, if_false]
      rw [literalOfPattern.eq_def]
      simp [hc, hm, escape_literal_roundtrip l]

theorem countOccGo_fuel (fold : Char → Char) (needle : List Char) (hn : needle ≠ []) :
    ∀ (f1 : Nat), ∀ (f2 : Nat) (l : List Char), l.length ≤ f1 → l.length ≤ f2 →
      countOccurrencesGo fold needle f1 l = countOccurrencesGo fold needle f2 l := by
  intro f1
  induction f1 with
  | zero =>
    intro f2 l h1 _
    have hl : l = [] := by
      cases l with
      | nil => rfl
      | cons a t => simp at h1
    subst hl
    cases f2 <;> rfl
  | succ a ih =>
    intro f2 l h1 h2
    cases l with
    | nil => cases f2 <;> rfl
    | cons c rest =>
      cases f2 with
      | zero => simp at h2
      | succ b =>
        have hlen : needle.length ≥ 1 := by
          cases needle with
          | nil => exact absurd rfl hn
          | cons x xs => simp
        simp only [List.length_cons] at h1 h2
        simp only [countOccurrencesGo]
        have hdl : ((c :: rest).drop needle.length).length ≤ rest.length := by
          simp only [List.length_drop, List.length_cons]
          omega
        split
        · rw [ih b ((c :: rest).drop needle.length) (by omega) (by omega)]
        · rw [ih b rest (by omega) (by omega)]

theorem litReplaceGo_fuel (fold : Char → Char) (needle repl : List Char) (hn : needle ≠ []) :
    ∀ (f1 : Nat), ∀ (f2 : Nat) (l : List Char), l.length ≤ f1 → l.length ≤ f2 →
      literalReplaceGo fold needle repl f1 l = literalReplaceGo fold needle repl f2 l := by
  intro f1
  induction f1 with
  | zero =>
    intro f2 l h1 _
    have hl : l = [] := by
      cases l with
      | nil => rfl
      | cons a t => simp at h1
    subst hl
    cases f2 <;> rfl
  | succ a ih =>
    intro f2 l h1 h2
    cases l with
    | nil => cases f2 <;> rfl
    | cons c rest =>
      cases f2 with
      | zero => simp at h2
      | succ b =>
        have hlen : needle.length ≥ 1 := by
          cases needle with
          | nil => exact absurd rfl hn
          | cons x xs => simp
        simp only [List.length_cons] at h1 h2
        simp only [literalReplaceGo]
        have hdl : ((c :: rest).drop needle.length).length ≤ rest.length := by
          simp only [List.length_drop, List.length_cons]
          omega
        split
        · rw [ih b ((c :: rest).drop needle.length) (by omega) (by omega)]
        · rw [ih b rest (by omega) (by omega)]

/-- The scanning loop of `match` with the `g` flag counts exactly the
leftmost non-overlapping occurrences of the remaining haystack. -/
theorem jsCountGo_eq (fold : Char → Char) (needle : List Char) (hn : needle ≠ []) :
    ∀ (l : List Char) (k : Nat),
      jsCountMatchesGo fold needle k l = countOccurrences fold needle (l.drop k)
  | [], k => by cases k <;> rfl
  | c :: rest, k => by
    cases k with
    | succ k' =>
      simp only [jsCountMatchesGo]
      rw [jsCountGo_eq fold needle hn rest k']
      rfl
    | zero =>
      have hlen : needle.length ≥ 1 := by
        cases needle with
        | nil => exact absurd rfl hn
        | cons x xs => simp
      have hdrop : (c :: rest).drop needle.length = rest.drop (needle.length - 1) := by
        cases hnl : needle.length with
        | zero => omega
        | succ m => simp
      simp only [jsCountMatchesGo, List.drop_zero]
      show _ = countOccurrencesGo fold needle (c :: rest).length (c :: rest)
      simp only [List.length_cons, countOccurrencesGo]
      split
      · rw [jsCountGo_eq fold needle hn rest (needle.length - 1), ← hdrop]
        have hx : ((c :: rest).drop needle.length).length ≤ rest.length := by
          simp only [List.length_drop, List.length_cons]
          omega
        unfold countOccurrences
        rw [countOccGo_fuel fold needle hn _ rest.length _ le_rfl hx]
      · rw [jsCountGo_eq fold needle hn rest 0, List.drop_zero]
        rfl

/-- With a dollar-free replacement, the scanning loop of `replace` with the
`g` flag computes the literal replace-all of the remaining haystack,
prepended with the output accumulated so far. -/
theorem jsReplaceAllGo_eq (fold : Char → Char) (needle repl : List Char)
    (hn : needle ≠ []) (hd : '$' ∉ repl) :
    ∀ (l : List Char) (k : Nat) (pre acc : List Char),
      jsReplaceAllGo fold needle repl pre acc k l
        = acc.reverse ++ literalReplaceAll fold needle repl (l.drop k)
  | [], k, pre, acc => by
    cases k <;> simp [jsReplaceAllGo, literalReplaceAll, literalReplaceGo]
  | c :: rest, k, pre, acc => by
    cases k with
    | succ k' =>
      simp only [jsReplaceAllGo]
      rw [jsReplaceAllGo_eq fold needle repl hn hd rest k' (c :: pre) acc]
      rfl
    | zero =>
      have hlen : needle.length ≥ 1 := by
        cases needle with
        | nil => exact absurd rfl hn
        | cons x xs => simp
      have hdrop : (c :: rest).drop needle.length = rest.drop (needle.length - 1) := by
        cases hnl : needle.length with
        | zero => omega
        | succ m => simp
      have hRHS : literalReplaceAll fold needle repl (c :: rest)
          = if matchesAt fold needle (c :: rest) then
              repl ++ literalReplaceAll fold needle repl ((c :: rest).drop needle.length)
            else c :: literalReplaceAll fold needle repl rest := by
        show literalReplaceGo fold needle repl (c :: rest).length (c :: rest) = _
        simp only [List.length_cons, literalReplaceGo]
        have hx : ((c :: rest).drop needle.length).length ≤ rest.length := by
          simp only [List.length_drop, List.length_cons]
          omega
        split
        · unfold literalReplaceAll
          rw [litReplaceGo_fuel fold needle repl hn rest.length _ _ hx le_rfl]
        · rfl
      simp only [jsReplaceAllGo, List.drop_zero]
      rw [hRHS]
      split
      · rw [expand_no_dollar _ _ _ repl hd]
        rw [jsReplaceAllGo_eq fold needle repl hn hd rest (needle.length - 1)
          (c :: pre) (repl.reverse ++ acc)]
        rw [← hdrop, List.reverse_append, List.reverse_reverse, List.append_assoc]
      · rw [jsReplaceAllGo_eq fold needle repl hn hd rest 0 (c :: pre) (c :: acc),
          List.drop_zero, List.reverse_cons, List.append_assoc]
        rfl

theorem jsCountMatches_eq (fold : Char → Char) (needle haystack : List Char)
    (hn : needle ≠ []) :
    jsCountMatches fold needle haystack = countOccurrences fold needle haystack := by
  unfold jsCountMatches
  rw [if_neg (by simpa [List.isEmpty_iff] using hn)]
  rw [jsCountGo_eq fold needle hn haystack 0, List.drop_zero]

theorem jsReplaceAll_eq (fold : Char → Char) (needle repl content : List Char)
    (hn : needle ≠ []) (hd : '$' ∉ repl) :
    jsReplaceAll fold needle repl content = literalReplaceAll fold needle repl content := by
  unfold jsReplaceAll
  rw [jsReplaceAllGo_eq fold needle repl hn hd content 0 [] [], List.drop_zero]
  rfl

theorem escapeRegex_toList (s : String) :
    (escapeRegex s).toList = escapeRegexList s.toList := rfl

/- ===== Claim theorems ===== -/

/-- C3: the unsaved-change guard returns true immediately (for either user
answer, i.e. without prompting) when the tab is unmodified; closing a
modified tab removes it only when the guard allows, and a declined guard
leaves the registry and active tab completely unchanged. -/
theorem guard_close_correct (now : Nat) (tabId : String) (s : AppState) (t : Tab)
    (answer : Bool) (hfind : s.tabs.find? (fun x => x.id == tabId) = some t) :
    (t.isModified = false →
       (∀ a : Bool, checkUnsavedChanges a s (some tabId) = true)
       ∧ handleCloseTab now answer tabId s = closeTab now tabId s)
    ∧ (t.isModified = true →
       checkUnsavedChanges answer s (some tabId) = answer
       ∧ (answer = false → handleCloseTab now answer tabId s = s)
       ∧ (answer = true → handleCloseTab now answer tabId s = closeTab now tabId s)) := by
  constructor
  · intro hm
    constructor
    · intro a
      unfold checkUnsavedChanges
      simp [hfind, hm]
    · unfold handleCloseTab
      simp [hfind, hm]
  · intro hm
    have hguard : checkUnsavedChanges answer s (some tabId) = answer := by
      unfold checkUnsavedChanges
      simp [hfind, hm]
    refine ⟨hguard, ?_, ?_⟩
    · intro ha
      subst ha
      unfold handleCloseTab
      simp [hfind, hm, hguard]
    · intro ha
      subst ha
      unfold handleCloseTab
      simp [hfind, hm, hguard]

/-- C3 witness: a concrete modified tab with a declining user leaves the
state unchanged, and the guard propagates the answer. -/
theorem guard_close_correct_witness :
    checkUnsavedChanges false
        (AppState.mk [Tab.mk "tab-1" "t" none "c" true] "tab-1") (some "tab-1") = false
    ∧ handleCloseTab 9 false "tab-1"
        (AppState.mk [Tab.mk "tab-1" "t" none "c" true] "tab-1")
      = AppState.mk [Tab.mk "tab-1" "t" none "c" true] "tab-1" := by
  have h := (guard_close_correct 9 "tab-1"
    (AppState.mk [Tab.mk "tab-1" "t" none "c" true] "tab-1")
    (Tab.mk "tab-1" "t" none "c" true) false (by decide)).2 (by decide)
  exact ⟨h.1, h.2.1 rfl⟩

/-- C5: while some tab is modified, a window-close request closes the window
exactly when the unsaved-change guard allows it, and a declined guard
cancels the close. -/
theorem window_close_guarded (s : AppState) (answer : Bool)
    (h : s.tabs.any (fun t => t.isModified) = true) :
    (handleWindowClose answer s = CloseOutcome.closed
       ↔ checkUnsavedChanges answer s none = true)
    ∧ (checkUnsavedChanges answer s none = false →
       handleWindowClose answer s = CloseOutcome.cancelled) := by
  unfold handleWindowClose
  rw [h]
  cases hg : checkUnsavedChanges answer s none <;> simp

/-- C5 witness: one modified tab and a declining user cancel the close. -/
theorem window_close_guarded_witness :
    handleWindowClose false (AppState.mk [Tab.mk "tab-1" "t" none "c" true] "tab-1")
      = CloseOutcome.cancelled := by
  have h := window_close_guarded
    (AppState.mk [Tab.mk "tab-1" "t" none "c" true] "tab-1") false (by decide)
  exact h.2 (by decide)

/-- C8: tab ids are derived from `Date.now()` alone, so two creations that
observe the same millisecond timestamp produce the same id — ids are not
unique within a process lifetime. -/
theorem tab_id_collision :
    (createNewTab 100 (createNewTab 100 initialState)).tabs.map Tab.id
      = ["tab-1", "tab-100", "tab-100"]
    ∧ ¬ ((createNewTab 100 (createNewTab 100 initialState)).tabs.map Tab.id).Nodup := by
  decide

/-- C9: the replacement string is passed to `replace` unescaped, so
dollar-sign substitution patterns are interpreted: replacing `cat` by the
replacement text `$&$&` in content `cat` yields `catcat` (the match
duplicated), not the literal replacement `$&$&`. -/
theorem replacement_dollar_semantics :
    (replaceAll (DocState.mk "cat"
        (FindSession.mk "cat" "$&$&" false 0 0))).content = "catcat"
    ∧ (replaceNext (DocState.mk "cat"
        (FindSession.mk "cat" "$&$&" false 0 0))).content = "catcat"
    ∧ String.mk (literalReplaceAll (foldCase false) "cat".toList "$&$&".toList "cat".toList)
        = "$&$&"
    ∧ ("catcat" : String) ≠ "$&$&" := by
  decide

/-- C1 counterexample: the invariant holds in the initial state, yet closing
its only tab leaves `activeTabId` referencing the removed tab (the fresh
replacement tab is not activated), so the invariant is not preserved. -/
theorem registry_invariant_cx :
    TabsInv initialState
    ∧ ¬ TabsInv (applyOp (RegistryOp.close 5 "tab-1") initialState) := by
  decide

/-- C2 counterexample: closing the last tab creates the fresh default tab
`tab-5` but does not activate it — `activeTabId` stays `tab-1`. -/
theorem closeTab_last_tab_cx :
    (closeTab 5 "tab-1" initialState).tabs = [defaultTab "tab-5"]
    ∧ (closeTab 5 "tab-1" initialState).activeTabId = "tab-1"
    ∧ ("tab-1" : String) ≠ "tab-5" := by
  decide

/-- C4 counterexample: a content-changed notification whose payload equals
the tab's previously bound content but not the canonical empty document
leaves `isModified = false`, although the claim's formula (false only when
the payload equals the empty document AND the bound content) demands true. -/
theorem onUpdate_isModified_cx :
    ((onUpdate "<p>x</p>"
        (AppState.mk [Tab.mk "tab-1" "a.md" (some "a.md") "<p>x</p>" false] "tab-1")).tabs.map
      Tab.isModified) = [false]
    ∧ ("<p>x</p>" : String) ≠ emptyDoc := by
  decide

/-- C6 counterexample: `findNext` with an empty query returns early without
resetting the counter — a stale `totalMatches = 2` persists instead of the
claimed reset to 0. -/
theorem findNext_empty_query_cx :
    (findNext "x" (FindSession.mk "" "" false 0 2)).totalMatches = 2
    ∧ (2 : Nat) ≠ 0 := by
  decide

/-- Every tab of the updated registry that carries the targeted id received
the new content and flag. -/
theorem updateTabContent_mem (tabId c : String) (m : Bool) (s : AppState) :
    ∀ t' ∈ (updateTabContent tabId c m s).tabs, t'.id = tabId →
      t'.content = c ∧ t'.isModified = m := by
  intro t' ht' hid
  unfold updateTabContent at ht'
  simp only [List.mem_map] at ht'
  obtain ⟨u, hu, rfl⟩ := ht'
  by_cases hc : u.id == tabId
  · simp [hc]
  · exfalso
    rw [if_neg hc] at hid
    exact hc (by simp [hid])

/-- C10: `updateTabContent` and `updateTabFile` touch only the tab whose id
matches, leave every other tab unchanged field-for-field and in place, keep
the target's id (and, for `updateTabContent`, its file binding), keep
`activeTabId` and the tab order, and are no-ops when the id is absent. -/
theorem update_ops_frame (s : AppState) (tabId c : String) (m : Bool)
    (fp : Option String) (ti : String) (m2 : Bool) :
    (updateTabContent tabId c m s).activeTabId = s.activeTabId
    ∧ (updateTabFile tabId fp ti m2 s).activeTabId = s.activeTabId
    ∧ (updateTabContent tabId c m s).tabs.length = s.tabs.length
    ∧ (updateTabFile tabId fp ti m2 s).tabs.length = s.tabs.length
    ∧ (∀ i t, s.tabs.get? i = some t →
        (t.id ≠ tabId →
          (updateTabContent tabId c m s).tabs.get? i = some t
          ∧ (updateTabFile tabId fp ti m2 s).tabs.get? i = some t)
        ∧ (t.id = tabId →
          (updateTabContent tabId c m s).tabs.get? i
              = some { t with content := c, isModified := m }
          ∧ (updateTabFile tabId fp ti m2 s).tabs.get? i
              = some { t with filePath := fp, title := ti, isModified := m2 }))
    ∧ (tabId ∉ s.tabs.map Tab.id →
        updateTabContent tabId c m s = s ∧ updateTabFile tabId fp ti m2 s = s) := by
  refine ⟨rfl, rfl, by simp [updateTabContent], by simp [updateTabFile], ?_, ?_⟩
  · intro i t hget
    constructor
    · intro hne
      have hb : (t.id == tabId) = false := by simp [hne]
      constructor
      · unfold updateTabContent
        simp only [List.get?_map, hget, Option.map_some']
        rw [if_neg (by simp [hne])]
      · unfold updateTabFile
        simp only [List.get?_map, hget, Option.map_some']
        rw [if_neg (by simp [hne])]
    · intro heq
      constructor
      · unfold updateTabContent
        simp only [List.get?_map, hget, Option.map_some']
        rw [if_pos (by simp [heq])]
      · unfold updateTabFile
        simp only [List.get?_map, hget, Option.map_some']
        rw [if_pos (by simp [heq])]
  · intro habs
    have hfix : ∀ (u : Tab), u ∈ s.tabs → ¬ (u.id == tabId) = true := by
      intro u hu hb
      exact habs (by
        simp only [List.mem_map]
        exact ⟨u, hu, by simpa using hb⟩)
    constructor
    · unfold updateTabContent
      cases s with
      | mk tabs active =>
        simp only [AppState.mk.injEq, and_true]
        apply map_eq_self_of_fixed
        intro u hu
        rw [if_neg (hfix u hu)]
    · unfold updateTabFile
      cases s with
      | mk tabs active =>
        simp only [AppState.mk.injEq, and_true]
        apply map_eq_self_of_fixed
        intro u hu
        rw [if_neg (hfix u hu)]

/-- C10 witness: updating the second of two tabs leaves the first tab, the
order and the active id unchanged, and rewrites only the matching tab. -/
theorem update_ops_frame_witness :
    (Tab.mk "tab-1" "a" none "x" false).id ≠ "tab-2"
    ∧ (updateTabContent "tab-2" "new" true
        (AppState.mk [Tab.mk "tab-1" "a" none "x" false,
                      Tab.mk "tab-2" "b" none "y" false] "tab-1")).tabs.get? 0
      = some (Tab.mk "tab-1" "a" none "x" false)
    ∧ (updateTabFile "tab-2" (some "p") "t" false
        (AppState.mk [Tab.mk "tab-1" "a" none "x" false,
                      Tab.mk "tab-2" "b" none "y" false] "tab-1")).tabs.get? 0
      = some (Tab.mk "tab-1" "a" none "x" false) := by
  have h := (update_ops_frame
    (AppState.mk [Tab.mk "tab-1" "a" none "x" false,
                  Tab.mk "tab-2" "b" none "y" false] "tab-1")
    "tab-2" "new" true (some "p") "t" false).2.2.2.2.1
    0 (Tab.mk "tab-1" "a" none "x" false) (by decide)
  have h2 := h.1 (by decide)
  exact ⟨by decide, h2.1, h2.2⟩

/-- C2 (amended): `closeTab id` keeps exactly the tabs whose id differs from
`id`; when the closed tab was active and tabs remain, the last remaining tab
in document order becomes active; when no tab remains, a single fresh
default tab is created, but it is not activated — `activeTabId` is left
unchanged. -/
theorem closeTab_behavior (now : Nat) (tabId : String) (s : AppState) :
    (∀ t : Tab, t ∈ (closeTab now tabId s).tabs ↔
       ((s.tabs.filter (fun x => x.id != tabId) ≠ [] ∧ t ∈ s.tabs ∧ t.id ≠ tabId)
        ∨ (s.tabs.filter (fun x => x.id != tabId) = [] ∧ t = defaultTab (mkTabId now))))
    ∧ (∀ last : Tab, (s.tabs.filter (fun x => x.id != tabId)).getLast? = some last →
        tabId = s.activeTabId → (closeTab now tabId s).activeTabId = last.id)
    ∧ (tabId ≠ s.activeTabId → (closeTab now tabId s).activeTabId = s.activeTabId)
    ∧ (s.tabs.filter (fun x => x.id != tabId) = [] →
        (closeTab now tabId s).tabs = [defaultTab (mkTabId now)]
        ∧ (closeTab now tabId s).activeTabId = s.activeTabId) := by
  refine ⟨?_, ?_, ?_, ?_⟩
  · intro t
    by_cases hF : s.tabs.filter (fun x => x.id != tabId) = []
    · simp [closeTab, hF]
    · have hne : (s.tabs.filter (fun x => x.id != tabId)).isEmpty = false := by
        simp [List.isEmpty_iff, hF]
      constructor
      · intro ht
        simp only [closeTab, hne, Bool.false_eq_true, if_false] at ht
        left
        have := List.mem_filter.mp ht
        exact ⟨hF, this.1, by simpa using this.2⟩
      · intro hcase
        rcases hcase with ⟨_, hmem, hid⟩ | ⟨hF2, _⟩
        · simp only [closeTab, hne, Bool.false_eq_true, if_false]
          exact List.mem_filter.mpr ⟨hmem, by simpa using hid⟩
        · exact absurd hF2 hF
  · intro last hlast heq
    have hb : (tabId == s.activeTabId) = true := by simp [heq]
    simp only [closeTab, hlast, hb, if_true]
  · intro hne2
    have hb : (tabId == s.activeTabId) = false := by simp [hne2]
    unfold closeTab
    cases hlast : (s.tabs.filter (fun x => x.id != tabId)).getLast? with
    | some last => simp [hlast, hb]
    | none => simp [hlast]
  · intro hF
    have hlast : (s.tabs.filter (fun x => x.id != tabId)).getLast? = none := by
      rw [hF]; rfl
    simp [closeTab, hF, hlast]

/-- C2 witness: with two tabs and the first (active) one closed, the
remaining (last) tab becomes active; membership matches the filter. -/
theorem closeTab_behavior_witness :
    (closeTab 9 "tab-1"
        (AppState.mk [Tab.mk "tab-1" "a" none "" false,
                      Tab.mk "tab-2" "b" none "" false] "tab-1")).activeTabId = "tab-2"
    ∧ (Tab.mk "tab-2" "b" none "" false) ∈
      (closeTab 9 "tab-1"
        (AppState.mk [Tab.mk "tab-1" "a" none "" false,
                      Tab.mk "tab-2" "b" none "" false] "tab-1")).tabs := by
  have h := closeTab_behavior 9 "tab-1"
    (AppState.mk [Tab.mk "tab-1" "a" none "" false,
                  Tab.mk "tab-2" "b" none "" false] "tab-1")
  refine ⟨h.2.1 (Tab.mk "tab-2" "b" none "" false) (by decide) (by decide), ?_⟩
  exact (h.1 (Tab.mk "tab-2" "b" none "" false)).mpr (by decide)

/-- C4 (amended): on a content-changed notification, the active tab's
`isModified` is recomputed as false exactly when the new content equals the
canonical empty-document serialization OR equals the tab's previously bound
content (the source computes `new !== empty && new !== previous`), and true
otherwise; in particular a fresh tab that immediately receives the canonical
empty-document serialization stays unmodified. -/
theorem onUpdate_isModified_rule (s : AppState) (tab : Tab) (newC : String)
    (now : Nat) (s2 : AppState)
    (h : s.tabs.find? (fun t => t.id == s.activeTabId) = some tab) :
    (∀ t', t' ∈ (onUpdate newC s).tabs → t'.id = s.activeTabId →
        t'.content = newC
        ∧ (t'.isModified = false ↔ (newC = emptyDoc ∨ newC = tab.content)))
    ∧ (∀ t', t' ∈ (onUpdate emptyDoc (createNewTab now s2)).tabs →
        t'.id = (createNewTab now s2).activeTabId → t'.isModified = false) := by
  constructor
  · have hat : activeTab s = some tab := by unfold activeTab; rw [h]
    intro t' ht' hid
    rw [onUpdate, hat] at ht'
    have hm := updateTabContent_mem s.activeTabId newC
      (newC != emptyDoc && newC != tab.content) s t' ht' hid
    refine ⟨hm.1, ?_⟩
    rw [hm.2]
    by_cases h1 : newC = emptyDoc <;> by_cases h2 : newC = tab.content <;>
      simp [h1, h2]
  · intro t' ht' hid
    set s3 := createNewTab now s2 with hs3
    have hfind : (s3.tabs.find? (fun t => t.id == s3.activeTabId)).isSome := by
      rw [List.find?_isSome]
      refine ⟨defaultTab (mkTabId now), ?_, ?_⟩
      · simp [hs3, createNewTab]
      · simp [hs3, createNewTab, defaultTab]
    obtain ⟨u, hu⟩ := Option.isSome_iff_exists.mp hfind
    have hat : activeTab s3 = some u := by unfold activeTab; rw [hu]
    rw [onUpdate, hat] at ht'
    have hm := updateTabContent_mem s3.activeTabId emptyDoc
      (emptyDoc != emptyDoc && emptyDoc != u.content) s3 t' ht' hid
    rw [hm.2]
    simp

/-- C4 witness: a tab bound to content `<p>hi</p>` receiving that same
content again is reported unmodified, matching the disjunctive rule. -/
theorem onUpdate_isModified_rule_witness :
    (Tab.mk "tab-1" "a" none "<p>hi</p>" false).content = "<p>hi</p>"
    ∧ ((Tab.mk "tab-1" "a" none "<p>hi</p>" false).isModified = false ↔
        (("<p>hi</p>" : String) = emptyDoc
         ∨ ("<p>hi</p>" : String) = (Tab.mk "tab-1" "a" none "<p>hi</p>" false).content)) := by
  have h := (onUpdate_isModified_rule
    (AppState.mk [Tab.mk "tab-1" "a" none "<p>hi</p>" false] "tab-1")
    (Tab.mk "tab-1" "a" none "<p>hi</p>" false) "<p>hi</p>" 7 initialState
    (by decide)).1
    (Tab.mk "tab-1" "a" none "<p>hi</p>" false) (by decide) (by decide)
  exact h

/-- C1 (amended): every registry operation keeps the registry nonempty, and
preserves the invariant "`activeTabId` references an existing tab" in every
case except `closeTab` of the sole remaining tab, where the fresh default
tab is created but not activated; even then the derived active tab (lookup
with first-tab fallback) exists in the registry. -/
theorem registry_invariant_preservation (s : AppState) (op : RegistryOp)
    (hInv : TabsInv s) (hok : opOK op s) :
    (applyOp op s).tabs ≠ []
    ∧ (TabsInv (applyOp op s) ∨ lastTabClose op s)
    ∧ ∃ t, activeTab (applyOp op s) = some t ∧ t ∈ (applyOp op s).tabs := by
  obtain ⟨hne, hmem⟩ := hInv
  have main : (applyOp op s).tabs ≠ [] ∧ (TabsInv (applyOp op s) ∨ lastTabClose op s) := by
    cases op with
    | create now =>
      constructor
      · simp [applyOp, createNewTab]
      · left
        constructor
        · simp [applyOp, createNewTab]
        · simp [applyOp, createNewTab, defaultTab]
    | close now tabId =>
      by_cases hF : s.tabs.filter (fun t => t.id != tabId) = []
      · have hE : (s.tabs.filter (fun t => t.id != tabId)).isEmpty = true := by
          simp [List.isEmpty_iff, hF]
        constructor
        · simp [applyOp, closeTab, hE]
        · right
          exact ⟨now, tabId, rfl, hF⟩
      · have hE : (s.tabs.filter (fun t => t.id != tabId)).isEmpty = false := by
          simp [List.isEmpty_iff, hF]
        have htabs : (applyOp (RegistryOp.close now tabId) s).tabs
            = s.tabs.filter (fun t => t.id != tabId) := by
          simp [applyOp, closeTab, hE]
        constructor
        · rw [htabs]; exact hF
        · left
          refine ⟨by rw [htabs]; exact hF, ?_⟩
          rw [htabs]
          have hsome : (s.tabs.filter (fun t => t.id != tabId)).getLast?.isSome := by
            rw [List.getLast?_isSome]; exact hF
          obtain ⟨last, hlast⟩ := Option.isSome_iff_exists.mp hsome
          have hlmem : last ∈ s.tabs.filter (fun t => t.id != tabId) :=
            List.mem_of_mem_getLast? (by simp [hlast])
          by_cases hb : (tabId == s.activeTabId) = true
          · have hact : (applyOp (RegistryOp.close now tabId) s).activeTabId = last.id := by
              simp [applyOp, closeTab, hlast, hb]
            rw [hact]
            exact List.mem_map_of_mem Tab.id hlmem
          · have hact : (applyOp (RegistryOp.close now tabId) s).activeTabId
                = s.activeTabId := by
              simp [applyOp, closeTab, hlast, hb]
            rw [hact]
            obtain ⟨t, ht, hid⟩ := List.mem_map.mp hmem
            refine List.mem_map.mpr ⟨t, List.mem_filter.mpr ⟨ht, ?_⟩, hid⟩
            have : tabId ≠ s.activeTabId := by
              intro hcontra; exact hb (by simp [hcontra])
            simp only [bne_iff_ne, ne_eq, hid]
            intro hcontra
            exact this hcontra.symm
    | select tabId =>
      exact ⟨hne, Or.inl ⟨hne, hok⟩⟩
    | next =>
      obtain ⟨t, ht, hid⟩ := List.mem_map.mp hmem
      have hfound := jsFindIndex_isSome (fun t => t.id == s.activeTabId) s.tabs
        ⟨t, ht, by simp [hid]⟩
      obtain ⟨i, hi⟩ := Option.isSome_iff_exists.mp hfound
      have hlen : 0 < s.tabs.length := List.length_pos.mpr hne
      have hnext : (i + 1) % s.tabs.length < s.tabs.length := Nat.mod_lt _ hlen
      obtain ⟨t', hget, hmem'⟩ := get?_some_of_lt s.tabs _ hnext
      have hget2 : s.tabs[(i + 1) % s.tabs.length]? = some t' := by
        rw [← List.get?_eq_getElem?]; exact hget
      have happ : applyOp RegistryOp.next s = { s with activeTabId := t'.id } := by
        simp [applyOp, cycleNext, hi, hget2]
      rw [happ]
      exact ⟨hne, Or.inl ⟨hne, List.mem_map_of_mem Tab.id hmem'⟩⟩
    | prev =>
      obtain ⟨t, ht, hid⟩ := List.mem_map.mp hmem
      have hfound := jsFindIndex_isSome (fun t => t.id == s.activeTabId) s.tabs
        ⟨t, ht, by simp [hid]⟩
      obtain ⟨i, hi⟩ := Option.isSome_iff_exists.mp hfound
      have hlen : 0 < s.tabs.length := List.length_pos.mpr hne
      have hilt := jsFindIndex_lt_length _ _ _ hi
      have hprev : (if i = 0 then s.tabs.length - 1 else i - 1) < s.tabs.length := by
        by_cases h0 : i = 0 <;> simp [h0] <;> omega
      obtain ⟨t', hget, hmem'⟩ := get?_some_of_lt s.tabs _ hprev
      have hget2 : s.tabs[(if i = 0 then s.tabs.length - 1 else i - 1)]? = some t' := by
        rw [← List.get?_eq_getElem?]; exact hget
      have happ : applyOp RegistryOp.prev s = { s with activeTabId := t'.id } := by
        simp [applyOp, cyclePrevious, hi, hget2]
      rw [happ]
      exact ⟨hne, Or.inl ⟨hne, List.mem_map_of_mem Tab.id hmem'⟩⟩
    | setContent tabId c m =>
      have hids : ((updateTabContent tabId c m s).tabs).map Tab.id = s.tabs.map Tab.id := by
        unfold updateTabContent
        simp only [List.map_map]
        apply List.map_congr_left
        intro u _
        simp only [Function.comp_apply]
        split <;> rfl
      constructor
      · simp only [applyOp]
        unfold updateTabContent
        simp [hne]
      · left
        refine ⟨?_, ?_⟩
        · simp only [applyOp]
          unfold updateTabContent
          simp [hne]
        · simpa [applyOp, hids] using hmem
    | setFile tabId fp ti m =>
      have hids : ((updateTabFile tabId fp ti m s).tabs).map Tab.id = s.tabs.map Tab.id := by
        unfold updateTabFile
        simp only [List.map_map]
        apply List.map_congr_left
        intro u _
        simp only [Function.comp_apply]
        split <;> rfl
      constructor
      · simp only [applyOp]
        unfold updateTabFile
        simp [hne]
      · left
        refine ⟨?_, ?_⟩
        · simp only [applyOp]
          unfold updateTabFile
          simp [hne]
        · simpa [applyOp, hids] using hmem
  exact ⟨main.1, main.2, activeTab_mem _ main.1⟩

/-- C1 witness: the invariant holds initially and is preserved by creating a
tab at time 7. -/
theorem registry_invariant_preservation_witness :
    TabsInv initialState
    ∧ ((applyOp (RegistryOp.create 7) initialState).tabs ≠ []
       ∧ (TabsInv (applyOp (RegistryOp.create 7) initialState)
          ∨ lastTabClose (RegistryOp.create 7) initialState)
       ∧ ∃ t, activeTab (applyOp (RegistryOp.create 7) initialState) = some t
            ∧ t ∈ (applyOp (RegistryOp.create 7) initialState).tabs) :=
  ⟨by decide,
   registry_invariant_preservation initialState (RegistryOp.create 7) (by decide) True.intro⟩

/-- C7 counterexample: on `cat cat dog`, `replaceAll` of `cat` by `dog`
produces `dog dog dog` but sets the match counter to 0 — the number of
occurrences replaced (2) is not returned. -/
theorem replaceAll_count_cx :
    (replaceAll (DocState.mk "cat cat dog"
        (FindSession.mk "cat" "dog" false 0 2))).content = "dog dog dog"
    ∧ (replaceAll (DocState.mk "cat cat dog"
        (FindSession.mk "cat" "dog" false 0 2))).sess.totalMatches = 0
    ∧ (0 : Nat) ≠ 2 := by
  decide

/-- C6 (amended): for a nonempty query, `findNext` reports as `totalMatches`
the number of leftmost non-overlapping occurrences of the query taken as a
literal string (every regex metacharacter escaped), case-folded unless
`caseSensitive`; it resets both counters to 0 when no occurrence exists.
For an empty query it returns without touching the session, so the previous
match count persists instead of being reset. -/
theorem findNext_matchCount (content : String) (sess : FindSession) :
    (sess.findText = "" → findNext content sess = sess)
    ∧ (sess.findText ≠ "" →
        (findNext content sess).totalMatches
          = countOccurrences (foldCase sess.caseSensitive) sess.findText.toList content.toList
        ∧ (countOccurrences (foldCase sess.caseSensitive) sess.findText.toList
              content.toList = 0 →
            (findNext content sess).totalMatches = 0
            ∧ (findNext content sess).currentMatch = 0)) := by
  constructor
  · intro h
    simp [findNext, h]
  · intro h
    have hn : sess.findText.toList ≠ [] := toList_ne_nil_of_ne_empty _ h
    have hlit : literalOfPattern (escapeRegex sess.findText).toList
        = some sess.findText.toList := by
      rw [escapeRegex_toList]
      exact escape_literal_roundtrip _
    have hcnt : regexCountMatches (foldCase sess.caseSensitive)
        (escapeRegex sess.findText) content
        = countOccurrences (foldCase sess.caseSensitive) sess.findText.toList
            content.toList := by
      unfold regexCountMatches
      rw [hlit]
      exact jsCountMatches_eq _ _ _ hn
    unfold findNext
    rw [if_neg h]
    simp only [hcnt]
    by_cases h0 : 0 < countOccurrences (foldCase sess.caseSensitive)
        sess.findText.toList content.toList
    · rw [if_pos h0]
      exact ⟨rfl, fun hc0 => by omega⟩
    · rw [if_neg h0]
      have hz : countOccurrences (foldCase sess.caseSensitive)
          sess.findText.toList content.toList = 0 := by omega
      exact ⟨by rw [hz], fun _ => ⟨rfl, rfl⟩⟩

/-- C6 witness: on `cat cat dog`, searching `cat` case-insensitively reports
2 matches — the literal occurrence count. -/
theorem findNext_matchCount_witness :
    (findNext "cat cat dog" (FindSession.mk "cat" "" false 0 0)).totalMatches = 2 := by
  have h := (findNext_matchCount "cat cat dog" (FindSession.mk "cat" "" false 0 0)).2
    (by decide)
  rw [h.1]
  decide

/-- C7 (amended): for a nonempty query, `replaceAll` rewrites the content to
the literal replace-all of every leftmost non-overlapping occurrence
(whenever the replacement contains no dollar sign); when the content
changed it re-imports the result and resets the match counters to 0 — it
does not return the number of occurrences replaced — and when nothing
changed the state is returned untouched. -/
theorem replaceAll_behavior (d : DocState) (hq : d.sess.findText ≠ "") :
    ('$' ∉ d.sess.replaceText.toList →
       (replaceAll d).content
         = String.mk (literalReplaceAll (foldCase d.sess.caseSensitive)
             d.sess.findText.toList d.sess.replaceText.toList d.content.toList))
    ∧ ((replaceAll d).content ≠ d.content →
        (replaceAll d).sess.totalMatches = 0 ∧ (replaceAll d).sess.currentMatch = 0)
    ∧ ((replaceAll d).content = d.content → replaceAll d = d) := by
  have hn : d.sess.findText.toList ≠ [] := toList_ne_nil_of_ne_empty _ hq
  have hlit : literalOfPattern (escapeRegex d.sess.findText).toList
      = some d.sess.findText.toList := by
    rw [escapeRegex_toList]
    exact escape_literal_roundtrip _
  have hjs : '$' ∉ d.sess.replaceText.toList →
      regexReplaceAll (foldCase d.sess.caseSensitive)
        (escapeRegex d.sess.findText) d.sess.replaceText d.content
      = String.mk (literalReplaceAll (foldCase d.sess.caseSensitive)
          d.sess.findText.toList d.sess.replaceText.toList d.content.toList) := by
    intro hd
    unfold regexReplaceAll
    rw [hlit]
    show String.mk (jsReplaceAll (foldCase d.sess.caseSensitive)
      d.sess.findText.toList d.sess.replaceText.toList d.content.toList) = _
    rw [jsReplaceAll_eq _ _ _ _ hn hd]
  by_cases hC : regexReplaceAll (foldCase d.sess.caseSensitive)
      (escapeRegex d.sess.findText) d.sess.replaceText d.content = d.content
  · have hra : replaceAll d = d := by
      unfold replaceAll
      rw [if_neg hq]
      simp only [ne_eq]
      rw [if_neg (not_not_intro hC)]
    refine ⟨?_, ?_, fun _ => hra⟩
    · intro hd
      rw [hra, ← hjs hd]
      exact hC.symm
    · intro hch
      rw [hra] at hch
      exact absurd rfl hch
  · have hra : replaceAll d
        = DocState.mk (regexReplaceAll (foldCase d.sess.caseSensitive)
            (escapeRegex d.sess.findText) d.sess.replaceText d.content)
          { d.sess with totalMatches := 0, currentMatch := 0 } := by
      unfold replaceAll
      rw [if_neg hq]
      simp only [ne_eq]
      rw [if_pos hC]
    refine ⟨?_, ?_, ?_⟩
    · intro hd
      rw [hra]
      exact hjs hd
    · intro _
      rw [hra]
      exact ⟨rfl, rfl⟩
    · intro hsame
      rw [hra] at hsame
      exact absurd hsame hC

/-- C7 witness: `replaceAll` of `cat` by `dog` on `cat cat dog` rewrites the
content to the literal replace-all, `dog dog dog`. -/
theorem replaceAll_behavior_witness :
    (replaceAll (DocState.mk "cat cat dog"
        (FindSession.mk "cat" "dog" false 0 0))).content = "dog dog dog" := by
  have h := (replaceAll_behavior
    (DocState.mk "cat cat dog" (FindSession.mk "cat" "dog" false 0 0))
    (by decide)).1 (by decide)
  rw [h]
  decide

end DocMarkings
